import Mathlib

/-!
Shallow embedding of `src/product_assistant/etl/data_scraper.py`
(class `FlipkartScraper`) and proofs about its specification.

Browser interaction is abstracted: a page visit is modelled by a
`PageOutcome` (either the list of candidate review texts that
BeautifulSoup extraction would yield for the rendered page, or an
exception somewhere in the navigate/scroll/parse sequence), and driver
lifecycle calls are recorded as an event trace.
-/

namespace CartSense

/-- Browser-driver lifecycle events recorded by the model:
`launch` corresponds to `uc.Chrome(...)`, `quit` to `driver.quit()`. -/
inductive BEvent where
  | launch
  | quit
deriving DecidableEq, Repr

/-- Outcome of rendering a product page inside the `try` block of
`get_top_reviews`: either the list of candidate review-block texts
(each already extracted with `get_text(separator=" ", strip=True)`,
i.e. whitespace-collapsed), in document order, or an exception. -/
inductive PageOutcome where
  | ok (blocks : List String)
  | err
deriving Repr

/-- The URL validation of `get_top_reviews` (lines 47-51):
`not product_url or not isinstance(product_url, str) or not
product_url.startswith("http")`. A missing / non-string URL is
modelled as `none`. -/
def validUrl : Option String → Bool
  | none => false
  | some s => !(s.data == []) && "http".data.isPrefixOf s.data

/-- `" || ".join(reviews)` — Python `str.join`. -/
def joinSep (sep : String) : List String → String
  | [] => ""
  | [x] => x
  | x :: y :: xs => x ++ sep ++ joinSep sep (y :: xs)

/-- The review-collection loop of `get_top_reviews` (lines 75-81):

```
for block in review_blocks:
    text = block.get_text(separator=" ", strip=True)
    if text and text not in seen:
        reviews.append(text)
        seen.add(text)
    if len(reviews) >= count:
        break
```

`seen` is the Python set, `acc` the `reviews` list. -/
def reviewLoop (count : Int) : List String → List String → List String → List String
  | [], _seen, acc => acc
  | b :: bs, seen, acc =>
    let fresh := !(b == "") && !(seen.contains b)
    let acc' := if fresh then acc ++ [b] else acc
    let seen' := if fresh then b :: seen else seen
    if count ≤ (acc'.length : Int) then acc' else reviewLoop count bs seen' acc'

/-- `reviews` as computed by the loop starting from empty state. -/
def collectReviews (blocks : List String) (count : Int) : List String :=
  reviewLoop count blocks [] []

/-- `FlipkartScraper.get_top_reviews` (lines 30-86). Returns the
result string together with the browser-event trace. Note the source
creates the driver (line 45) *before* validating the URL (lines
47-52), and the early return on invalid URL does not quit the driver. -/
def get_top_reviews (product_url : Option String) (count : Int)
    (page : PageOutcome) : String × List BEvent :=
  -- driver = uc.Chrome(...)          → BEvent.launch
  if !(validUrl product_url) then
    ("No reviews found", [BEvent.launch])
  else
    let reviews :=
      match page with
      | .ok blocks => collectReviews blocks count
      | .err => []
    -- driver.quit()
    (match reviews with
     | [] => "No reviews found"
     | _ => joinSep " || " reviews,
     [BEvent.launch, BEvent.quit])

/-- Specification-side helper: the distinct non-empty texts of a block
list, keeping first occurrences, in order, skipping anything in
`avoid`. `distinctNonEmpty [] blocks` is the list of the K distinct
non-empty candidate review texts the spec quantifies over. -/
def distinctNonEmpty (avoid : List String) : List String → List String
  | [] => []
  | b :: bs =>
    if b = "" ∨ b ∈ avoid then distinctNonEmpty avoid bs
    else b :: distinctNonEmpty (b :: avoid) bs

theorem distinctNonEmpty_sound (avoid : List String) (bs : List String) :
    (∀ x ∈ distinctNonEmpty avoid bs, x ≠ "" ∧ x ∉ avoid) ∧
      (distinctNonEmpty avoid bs).Nodup := by
  induction bs generalizing avoid with
  | nil => simp [distinctNonEmpty]
  | cons b bs ih =>
    by_cases hb : b = "" ∨ b ∈ avoid
    · simpa [distinctNonEmpty, hb] using ih avoid
    · push_neg at hb
      have ih' := ih (b :: avoid)
      simp only [distinctNonEmpty, if_neg (by tauto : ¬(b = "" ∨ b ∈ avoid))]
      constructor
      · intro x hx
        rcases List.mem_cons.1 hx with rfl | hx
        · exact ⟨hb.1, hb.2⟩
        · have := ih'.1 x hx
          exact ⟨this.1, fun hmem => this.2 (List.mem_cons_of_mem _ hmem)⟩
      · refine List.nodup_cons.2 ⟨fun hmem => ?_, ih'.2⟩
        exact (ih'.1 b hmem).2 (List.mem_cons_self b avoid)

/-- The loop collects, beyond its accumulator, exactly the first
`count - acc.length` distinct non-empty texts not yet seen. -/
theorem reviewLoop_eq (count : Int) (bs : List String) :
    ∀ seen acc : List String, (acc.length : Int) < count →
      reviewLoop count bs seen acc =
        acc ++ (distinctNonEmpty seen bs).take (count.toNat - acc.length) := by
  induction bs with
  | nil => intro seen acc _; simp [reviewLoop, distinctNonEmpty]
  | cons b bs ih =>
    intro seen acc hlt
    by_cases hb : b = "" ∨ b ∈ seen
    · have hfresh : (!(b == "") && !(seen.contains b)) = false := by
        rcases hb with hb | hb
        · simp [hb]
        · simp [hb]
      have hbreak : ¬ count ≤ (acc.length : Int) := not_le.2 hlt
      simp only [reviewLoop, hfresh, if_false, Bool.false_eq_true, if_neg hbreak]
      rw [ih seen acc hlt]
      simp [distinctNonEmpty, hb]
    · push_neg at hb
      have hfresh : (!(b == "") && !(seen.contains b)) = true := by
        simp [hb.1, hb.2]
      have hlen : ((acc ++ [b]).length : Int) = (acc.length : Int) + 1 := by
        simp
      by_cases hstop : count ≤ ((acc ++ [b]).length : Int)
      · -- appended and the break fires: count = acc.length + 1
        have hc : count = (acc.length : Int) + 1 := by omega
        have htake : count.toNat - acc.length = 1 := by omega
        simp only [reviewLoop, hfresh, if_true, if_pos hstop]
        rw [htake]
        simp [distinctNonEmpty, hb.1, hb.2]
      · have hlt' : (((acc ++ [b]).length : Int)) < count := not_le.1 hstop
        simp only [reviewLoop, hfresh, if_true, if_neg hstop]
        rw [ih (b :: seen) (acc ++ [b]) hlt']
        have htake : count.toNat - acc.length = (count.toNat - (acc ++ [b]).length) + 1 := by
          simp only [List.length_append, List.length_cons, List.length_nil]
          omega
        simp only [distinctNonEmpty, if_neg (by tauto : ¬(b = "" ∨ b ∈ seen))]
        rw [htake]
        simp [List.take_succ_cons]

/-- `collectReviews` is a prefix of the distinct non-empty candidate
texts whenever at least one review is requested. -/
theorem collectReviews_eq (blocks : List String) (count : Int) (hc : 1 ≤ count) :
    collectReviews blocks count = (distinctNonEmpty [] blocks).take count.toNat := by
  have h := reviewLoop_eq count blocks [] [] (by simpa using hc)
  simpa [collectReviews] using h

/-- C1: for a valid URL and a positive requested count `count`, with
`K` the number of distinct non-empty candidate review texts of the
rendered page: if `K ≥ count` the result is exactly `count` snippets
joined by `" || "` with no duplicate among them; if `K < count` the
result is all `K` distinct snippets, or the `"No reviews found"`
sentinel when `K = 0`. Deduplication is by exact text match. -/
theorem get_top_reviews_dedup_and_count (url : String) (blocks : List String)
    (count : Int) (hu : validUrl (some url) = true) (hc : 1 ≤ count) :
    (count ≤ ((distinctNonEmpty [] blocks).length : Int) →
      (get_top_reviews (some url) count (.ok blocks)).1 =
          joinSep " || " ((distinctNonEmpty [] blocks).take count.toNat) ∧
        ((distinctNonEmpty [] blocks).take count.toNat).length = count.toNat ∧
        ((distinctNonEmpty [] blocks).take count.toNat).Nodup) ∧
    (((distinctNonEmpty [] blocks).length : Int) < count →
      (distinctNonEmpty [] blocks ≠ [] →
        (get_top_reviews (some url) count (.ok blocks)).1 =
          joinSep " || " (distinctNonEmpty [] blocks)) ∧
      (distinctNonEmpty [] blocks = [] →
        (get_top_reviews (some url) count (.ok blocks)).1 = "No reviews found")) := by
  have hrev : collectReviews blocks count =
      (distinctNonEmpty [] blocks).take count.toNat := collectReviews_eq blocks count hc
  have hnodupD : (distinctNonEmpty [] blocks).Nodup := (distinctNonEmpty_sound [] blocks).2
  constructor
  · intro hK
    have htake : count.toNat ≤ (distinctNonEmpty [] blocks).length := by omega
    have hlen : ((distinctNonEmpty [] blocks).take count.toNat).length = count.toNat := by
      simp [List.length_take, htake]
    have hne : (distinctNonEmpty [] blocks).take count.toNat ≠ [] := by
      intro h
      rw [h] at hlen
      simp at hlen
      omega
    obtain ⟨x, xs, hxx⟩ := List.exists_cons_of_ne_nil hne
    refine ⟨?_, hlen, (List.take_sublist _ _).nodup hnodupD⟩
    simp only [get_top_reviews, hu, Bool.not_true, Bool.false_eq_true, if_false]
    rw [hrev, hxx]
  · intro hK
    have htake : (distinctNonEmpty [] blocks).take count.toNat =
        distinctNonEmpty [] blocks := by
      apply List.take_of_length_le
      omega
    constructor
    · intro hne
      obtain ⟨x, xs, hxx⟩ := List.exists_cons_of_ne_nil hne
      simp only [get_top_reviews, hu, Bool.not_true, Bool.false_eq_true, if_false]
      rw [hrev, htake, hxx]
    · intro hnil
      simp only [get_top_reviews, hu, Bool.not_true, Bool.false_eq_true, if_false]
      rw [hrev, htake, hnil]

/-- Witness for `get_top_reviews_dedup_and_count` at a concrete call:
4 candidate blocks with one duplicate give K = 3 distinct texts, and
requesting 2 returns the first two joined. -/
theorem get_top_reviews_dedup_and_count_witness :
    validUrl (some "http://a") = true ∧ (1 : Int) ≤ 2 ∧
      (get_top_reviews (some "http://a") 2 (.ok ["r1", "r2", "r1", "r3"])).1 = "r1 || r2" := by
  refine ⟨by decide, by decide, ?_⟩
  have h := (get_top_reviews_dedup_and_count "http://a" ["r1", "r2", "r1", "r3"] 2
      (by decide) (by decide)).1 (by decide)
  rw [h.1]
  decide

/-- C2 (code bug): an invalid URL does return the `"No reviews
found"` sentinel, but the source constructs the Chrome driver (line
45) *before* the URL validation (lines 47-51), so a browser session
is launched anyway — the event trace of the early-return path is
`[launch]`, not `[]`. -/
theorem get_top_reviews_invalid_url_still_launches :
    (get_top_reviews (some "ftp://example.com") 2 (.ok ["great phone"])).1
        = "No reviews found" ∧
      (get_top_reviews (some "ftp://example.com") 2 (.ok ["great phone"])).2
        = [BEvent.launch] ∧
      (get_top_reviews none 2 (.ok ["great phone"])).2 = [BEvent.launch] := by
  refine ⟨by decide, by decide, by decide⟩

/-- C3 (code bug): on the invalid-URL early return (line 52) the
acquired session is never quit — the trace contains `launch` but no
`quit`, so the browser resource leaks on that exit path. -/
theorem get_top_reviews_leaks_session_on_invalid_url :
    BEvent.launch ∈ (get_top_reviews none 2 PageOutcome.err).2 ∧
      BEvent.quit ∉ (get_top_reviews none 2 PageOutcome.err).2 := by
  decide

/-- C3 context: on the paths that reach the `try` block (valid URL,
normal or exceptional extraction), the session *is* quit. -/
theorem get_top_reviews_quits_on_valid_url (url : String) (count : Int)
    (page : PageOutcome) (hu : validUrl (some url) = true) :
    (get_top_reviews (some url) count page).2 = [BEvent.launch, BEvent.quit] := by
  simp [get_top_reviews, hu]

/-- Witness for `get_top_reviews_quits_on_valid_url`. -/
theorem get_top_reviews_quits_on_valid_url_witness :
    validUrl (some "https://www.flipkart.com/x") = true ∧
      (get_top_reviews (some "https://www.flipkart.com/x") 2 PageOutcome.err).2
        = [BEvent.launch, BEvent.quit] := by
  exact ⟨by decide, get_top_reviews_quits_on_valid_url "https://www.flipkart.com/x" 2
    PageOutcome.err (by decide)⟩

/-- C7 counterexample: with `count = 0` and a page whose first
candidate block is empty but whose second is the non-empty text
`"good"`, the result is the sentinel, not one snippet: the cutoff
check runs after every iteration, so the loop breaks on the first
block even though nothing was appended. -/
theorem reviews_zero_count_counterexample :
    ("good" ∈ ["", "good"] ∧ "good" ≠ "") ∧
      (get_top_reviews (some "http://x") 0 (.ok ["", "good"])).1 = "No reviews found" := by
  exact ⟨⟨by decide, by decide⟩, by decide⟩

/-- C7 amended: with `count ≤ 0` and a valid URL, the loop always
breaks after processing the first candidate block: the result is that
block's text when it is non-empty, and the `"No reviews found"`
sentinel otherwise (even if later blocks are non-empty). -/
theorem reviews_nonpos_count_first_block (url : String) (count : Int) (b : String)
    (bs : List String) (hu : validUrl (some url) = true) (hc : count ≤ 0) :
    (get_top_reviews (some url) count (.ok (b :: bs))).1 =
      if b = "" then "No reviews found" else b := by
  have hloop : collectReviews (b :: bs) count = if b = "" then [] else [b] := by
    by_cases hb : b = ""
    · simp [collectReviews, reviewLoop, hb]
      intro h
      exact absurd h (by omega)
    · simp [collectReviews, reviewLoop, hb]
      intro h
      exact absurd h (by omega)
  by_cases hb : b = ""
  · simp only [get_top_reviews, hu, Bool.not_true, Bool.false_eq_true, if_false]
    rw [hloop]
    simp [hb]
  · simp only [get_top_reviews, hu, Bool.not_true, Bool.false_eq_true, if_false]
    rw [hloop]
    simp [hb, joinSep]

/-- Witness for `reviews_nonpos_count_first_block`: a non-empty first
block with `count = 0` yields exactly that one snippet. -/
theorem reviews_nonpos_count_first_block_witness :
    validUrl (some "http://x") = true ∧ (0 : Int) ≤ 0 ∧
      (get_top_reviews (some "http://x") 0 (.ok ["nice", "other"])).1 = "nice" := by
  refine ⟨by decide, le_refl 0, ?_⟩
  have h := reviews_nonpos_count_first_block "http://x" 0 "nice" ["other"]
    (by decide) (le_refl 0)
  simpa using h

/-! ## Product listing extraction (`scrape_flipkart_products`, lines 88-170) -/

/-- Python `str.strip()`: remove leading and trailing whitespace. -/
def pyStrip (s : String) : String :=
  ⟨((s.data.dropWhile Char.isWhitespace).reverse.dropWhile Char.isWhitespace).reverse⟩

/-- Maximal run of decimal digits at the head of the character list,
together with the remainder (regex `\d+` greedy). -/
def digitRun : List Char → List Char × List Char
  | [] => ([], [])
  | c :: cs =>
    if c.isDigit then
      let (d, r) := digitRun cs
      (c :: d, r)
    else ([], c :: cs)

/-- The lookahead `(?=\s+Reviews)` of the `total_reviews` regex (line
128): one or more whitespace characters followed by the literal
`Reviews`. Since `Reviews` does not start with whitespace, `\s+` can
only succeed with the maximal whitespace run. -/
def lookaheadReviews (l : List Char) : Bool :=
  match l with
  | [] => false
  | c :: cs => c.isWhitespace && "Reviews".data.isPrefixOf (cs.dropWhile Char.isWhitespace)

/-- The regex `\d+(,\d+)?(?=\s+Reviews)` anchored at the head of the
list. `\d+` and the inner `\d+` are effectively maximal (shrinking a
digit run leaves a digit as the next character, which can satisfy
neither `,` nor `\s`), and if the optional group consumed `,\d+` but
the lookahead fails, dropping the group leaves `,` facing `\s+`,
which also fails. -/
def matchTotalReviewsAt (l : List Char) : Option (List Char) :=
  match l with
  | [] => none
  | c :: _ =>
    if c.isDigit then
      let (d1, r1) := digitRun l
      match r1 with
      | ',' :: r2 =>
        match r2 with
        | c2 :: _ =>
          if c2.isDigit then
            let (d2, r3) := digitRun r2
            if lookaheadReviews r3 then some (d1 ++ ',' :: d2) else none
          else if lookaheadReviews r1 then some d1 else none
        | [] => if lookaheadReviews r1 then some d1 else none
      | _ => if lookaheadReviews r1 then some d1 else none
    else none

/-- `re.search(r"\d+(,\d+)?(?=\s+Reviews)", reviews_text)`: leftmost
match, scanning start positions left to right. -/
def searchTotalReviews : List Char → Option (List Char)
  | [] => none
  | c :: cs =>
    match matchTotalReviewsAt (c :: cs) with
    | some m => some m
    | none => searchTotalReviews cs

/-- `total_reviews = match.group(0) if match else "N/A"` (line 129). -/
def totalReviewsOf (reviews_text : String) : String :=
  match searchTotalReviews reviews_text.data with
  | some m => ⟨m⟩
  | none => "N/A"

/-- The regex character class `[0-9A-Za-z]`. -/
def alnum (c : Char) : Bool :=
  c.isDigit || c.isAlpha

/-- Maximal run of `[0-9A-Za-z]` characters at the head of the list
(regex `[0-9A-Za-z]+` greedy). -/
def alnumRun : List Char → List Char × List Char
  | [] => ([], [])
  | c :: cs =>
    if alnum c then
      let (d, r) := alnumRun cs
      (c :: d, r)
    else ([], c :: cs)

/-- The regex `/p/(itm[0-9A-Za-z]+)` anchored at the head of the
list, returning the captured group. -/
def matchItmAt (l : List Char) : Option (List Char) :=
  if "/p/itm".data.isPrefixOf l then
    let tok := (alnumRun (l.drop 6)).1
    if tok = [] then none else some ("itm".data ++ tok)
  else none

/-- `re.findall(r"/p/(itm[0-9A-Za-z]+)", href)` restricted to its
first result: leftmost match. -/
def searchItm : List Char → Option (List Char)
  | [] => none
  | c :: cs =>
    match matchItmAt (c :: cs) with
    | some m => some m
    | none => searchItm cs

/-- Lines 148-149: `match = re.findall(r"/p/(itm[0-9A-Za-z]+)",
href) if href else []; product_id = match[0] if match else "N/A"`. -/
def extract_product_id (href : Option String) : String :=
  match href with
  | none => "N/A"
  | some h =>
    if h.data = [] then "N/A"
    else
      match searchItm h.data with
      | some m => ⟨m⟩
      | none => "N/A"

/-- Lines 138-145: `product_link = href if href.startswith("http")
else "https://www.flipkart.com" + href` when `href` is truthy, else
`None`. -/
def resolve_link (href : Option String) : Option String :=
  match href with
  | none => none
  | some h =>
    if h.data = [] then none
    else some (if "http".data.isPrefixOf h.data then h else "https://www.flipkart.com" ++ h)

/-- Python's substring test `needle in hay`. -/
def containsSub (needle : List Char) : List Char → Bool
  | [] => needle == []
  | c :: cs => needle.isPrefixOf (c :: cs) || containsSub needle cs

/-- One result card as the browser presents it: each field lookup is
a `find_element` call that either yields the element's raw text (or,
for the anchor, its `href` attribute, possibly `None`) or throws. -/
structure RawCard where
  title : Except Unit String
  price : Except Unit String
  rating : Except Unit String
  reviews_text : Except Unit String
  href : Except Unit (Option String)

/-- The fields assembled inside the per-card `try` block (lines
121-149). -/
structure ExtractedCard where
  product_id : String
  title : String
  rating : String
  total_reviews : String
  price : String
  product_link : Option String
deriving DecidableEq, Repr

/-- The per-card `try` block: any throwing field lookup skips the
card (`except ... continue`, lines 150-152). -/
def extract_card (item : RawCard) : Option ExtractedCard :=
  match item.title, item.price, item.rating, item.reviews_text, item.href with
  | .ok t, .ok p, .ok r, .ok rt, .ok h =>
    some { product_id := extract_product_id h
           title := pyStrip t
           rating := pyStrip r
           total_reviews := totalReviewsOf (pyStrip rt)
           price := pyStrip p
           product_link := resolve_link h }
  | _, _, _, _, _ => none

/-- Lines 159-163: call the review extractor only when the resolved
link is non-`None` *and* contains `"flipkart.com"`; otherwise the
`"Invalid product URL"` sentinel. Returns the `top_reviews` value
and the list of extractor invocations (argument URL and count). -/
def topReviewsFor (review_count : Int) (link : Option String) (page : PageOutcome) :
    String × List (Option String × Int) :=
  match link with
  | some l =>
    if containsSub "flipkart.com".data l.data then
      ((get_top_reviews (some l) review_count page).1, [(some l, review_count)])
    else ("Invalid product URL", [])
  | none => ("Invalid product URL", [])

/-- The record appended for a successfully extracted card (lines
165-167): `[product_id, title, rating, total_reviews, price,
top_reviews]`. -/
def recordRow (review_count : Int) (e : ExtractedCard) (page : PageOutcome) : List String :=
  [e.product_id, e.title, e.rating, e.total_reviews, e.price,
   (topReviewsFor review_count e.product_link page).1]

/-- The card loop of `scrape_flipkart_products` (lines 120-167).
Each card is paired with the `PageOutcome` its detail page would
yield to the review extractor. Returns the record list and the list
of review-extractor invocations. -/
def scrapeGo (review_count : Int) :
    List (RawCard × PageOutcome) → List (List String) × List (Option String × Int)
  | [] => ([], [])
  | (item, page) :: rest =>
    match extract_card item with
    | none => scrapeGo review_count rest
    | some e =>
      let tr := topReviewsFor review_count e.product_link page
      let next := scrapeGo review_count rest
      ([e.product_id, e.title, e.rating, e.total_reviews, e.price, tr.1] :: next.1,
       tr.2 ++ next.2)

/-- `FlipkartScraper.scrape_flipkart_products` (lines 88-170): the
page's result cards are truncated to `max_products` (line 119) and
then processed by the card loop. -/
def scrape_flipkart_products (cards : List (RawCard × PageOutcome))
    (max_products : Nat) (review_count : Int) :
    List (List String) × List (Option String × Int) :=
  scrapeGo review_count (cards.take max_products)

/-- The review-extractor invocation a successfully extracted card
gives rise to, if any (spec view of lines 159-163). -/
def callFor (review_count : Int) (e : ExtractedCard) : Option (Option String × Int) :=
  match e.product_link with
  | some l =>
    if containsSub "flipkart.com".data l.data then some (some l, review_count) else none
  | none => none

theorem scrapeGo_records (rc : Int) (l : List (RawCard × PageOutcome)) :
    (scrapeGo rc l).1 =
      l.filterMap (fun cp => (extract_card cp.1).map (fun e => recordRow rc e cp.2)) := by
  induction l with
  | nil => simp [scrapeGo]
  | cons cp rest ih =>
    obtain ⟨item, page⟩ := cp
    cases h : extract_card item with
    | none => simp [scrapeGo, h, ih]
    | some e => simp [scrapeGo, h, ih, recordRow]

theorem scrapeGo_calls (rc : Int) (l : List (RawCard × PageOutcome)) :
    (scrapeGo rc l).2 =
      l.filterMap (fun cp => (extract_card cp.1).bind (callFor rc)) := by
  induction l with
  | nil => simp [scrapeGo]
  | cons cp rest ih =>
    obtain ⟨item, page⟩ := cp
    cases h : extract_card item with
    | none => simp [scrapeGo, h, ih]
    | some e =>
      cases hl : e.product_link with
      | none => simp [scrapeGo, h, ih, topReviewsFor, callFor, hl]
      | some lnk =>
        by_cases hf : containsSub "flipkart.com".data lnk.data = true
        · simp [scrapeGo, h, ih, topReviewsFor, callFor, hl, hf]
        · simp only [Bool.not_eq_true] at hf
          simp [scrapeGo, h, ih, topReviewsFor, callFor, hl, hf]

/-- C4: a card for which any required element lookup throws is
skipped, and the pass returns one record per remaining card, in
encounter order: the record list is exactly the `filterMap` of the
per-card extraction over the first `max_products` cards, and a card
is dropped precisely when one of its five element lookups threw. -/
theorem scrape_per_card_isolation (cards : List (RawCard × PageOutcome))
    (max_products : Nat) (review_count : Int) :
    (scrape_flipkart_products cards max_products review_count).1 =
      (cards.take max_products).filterMap
        (fun cp => (extract_card cp.1).map (fun e => recordRow review_count e cp.2)) ∧
      ∀ item : RawCard,
        (extract_card item = none ↔
          (item.title.toOption = none ∨ item.price.toOption = none ∨
            item.rating.toOption = none ∨ item.reviews_text.toOption = none ∨
            item.href.toOption = none)) := by
  refine ⟨scrapeGo_records review_count (cards.take max_products), ?_⟩
  intro item
  obtain ⟨t, p, r, rt, h⟩ := item
  cases t <;> cases p <;> cases r <;> cases rt <;> cases h <;>
    simp [extract_card, Except.toOption]

/-- Elements appended by the review loop are non-empty. -/
theorem reviewLoop_mem (count : Int) (bs : List String) :
    ∀ seen acc x, x ∈ reviewLoop count bs seen acc → x ∈ acc ∨ x ≠ "" := by
  induction bs with
  | nil =>
    intro seen acc x hx
    exact Or.inl (by simpa [reviewLoop] using hx)
  | cons b bs ih =>
    intro seen acc x hx
    by_cases hb : (!(b == "") && !(seen.contains b)) = true
    · have hbne : b ≠ "" := by
        intro h
        rw [h] at hb
        simp at hb
      simp only [reviewLoop, hb, if_true] at hx
      split at hx
      · rcases List.mem_append.1 hx with h | h
        · exact Or.inl h
        · right
          rw [List.mem_singleton.1 h]
          exact hbne
      · rcases ih (b :: seen) (acc ++ [b]) x hx with h | h
        · rcases List.mem_append.1 h with h | h
          · exact Or.inl h
          · right
            rw [List.mem_singleton.1 h]
            exact hbne
        · exact Or.inr h
    · have hb' : (!(b == "") && !(seen.contains b)) = false := by
        simpa using hb
      simp only [reviewLoop, hb', Bool.false_eq_true, if_false] at hx
      split at hx
      · exact Or.inl hx
      · exact ih seen acc x hx

theorem collectReviews_mem (blocks : List String) (count : Int) :
    ∀ x ∈ collectReviews blocks count, x ≠ "" := by
  intro x hx
  rcases reviewLoop_mem count blocks [] [] x hx with h | h
  · simp at h
  · exact h

theorem joinSep_ne_empty (x : String) (xs : List String) (hx : x ≠ "") :
    joinSep " || " (x :: xs) ≠ "" := by
  cases xs with
  | nil => simpa [joinSep] using hx
  | cons y ys =>
    simp only [joinSep]
    intro h
    have hl := congrArg String.length h
    rw [String.length_append, String.length_append] at hl
    have h4 : (" || " : String).length = 4 := by decide
    have h0 : ("" : String).length = 0 := by decide
    omega

/-- The `top_reviews` value of any record is one of the three
spec-sanctioned shapes. -/
theorem topReviewsFor_cases (rc : Int) (link : Option String) (page : PageOutcome) :
    (topReviewsFor rc link page).1 = "Invalid product URL" ∨
      (topReviewsFor rc link page).1 = "No reviews found" ∨
      ∃ r : List String, r ≠ [] ∧ (∀ x ∈ r, x ≠ "") ∧
        (topReviewsFor rc link page).1 = joinSep " || " r := by
  cases link with
  | none => exact Or.inl rfl
  | some l =>
    by_cases hf : containsSub "flipkart.com".data l.data = true
    · simp only [topReviewsFor, hf, if_true]
      by_cases hu : validUrl (some l) = true
      · cases page with
        | err =>
          right
          left
          simp [get_top_reviews, hu]
        | ok blocks =>
          cases hrv : collectReviews blocks rc with
          | nil =>
            right
            left
            simp only [get_top_reviews, hu, Bool.not_true, Bool.false_eq_true, if_false]
            rw [hrv]
          | cons x xs =>
            right
            right
            refine ⟨x :: xs, by simp, ?_, ?_⟩
            · intro y hy
              apply collectReviews_mem blocks rc
              rw [hrv]
              exact hy
            · simp only [get_top_reviews, hu, Bool.not_true, Bool.false_eq_true, if_false]
              rw [hrv]
      · right
        left
        have hu' : validUrl (some l) = false := by simpa using hu
        simp [get_top_reviews, hu']
    · simp only [Bool.not_eq_true] at hf
      exact Or.inl (by simp [topReviewsFor, hf])

/-- C5: every record the listing pass produces has a six-field shape
whose last field `top_reviews` is non-empty: it is joined non-empty
review snippets, the `"No reviews found"` sentinel, or the
`"Invalid product URL"` sentinel. -/
theorem top_reviews_never_empty (cards : List (RawCard × PageOutcome))
    (max_products : Nat) (review_count : Int) :
    ∀ row ∈ (scrape_flipkart_products cards max_products review_count).1,
      ∃ pid t ra tr pr top, row = [pid, t, ra, tr, pr, top] ∧ top ≠ "" ∧
        (top = "Invalid product URL" ∨ top = "No reviews found" ∨
          ∃ r : List String, r ≠ [] ∧ (∀ x ∈ r, x ≠ "") ∧ top = joinSep " || " r) := by
  intro row hrow
  simp only [scrape_flipkart_products] at hrow
  rw [scrapeGo_records] at hrow
  obtain ⟨cp, _hcp, hmap⟩ := List.mem_filterMap.1 hrow
  cases hcard : extract_card cp.1 with
  | none =>
    rw [hcard] at hmap
    simp at hmap
  | some e =>
    rw [hcard] at hmap
    simp only [Option.map_some'] at hmap
    refine ⟨e.product_id, e.title, e.rating, e.total_reviews, e.price,
      (topReviewsFor review_count e.product_link cp.2).1, ?_, ?_, ?_⟩
    · rw [← Option.some.inj hmap]
      rfl
    · rcases topReviewsFor_cases review_count e.product_link cp.2 with h | h | ⟨r, hr, hrx, h⟩
      · rw [h]
        decide
      · rw [h]
        decide
      · rw [h]
        obtain ⟨x, xs, rfl⟩ := List.exists_cons_of_ne_nil hr
        exact joinSep_ne_empty x xs (hrx x (List.mem_cons_self x xs))
    · exact topReviewsFor_cases review_count e.product_link cp.2

/-- Witness for `top_reviews_never_empty`: one fully extractable card
whose detail link resolves to a flipkart URL and whose page renders
two review blocks. -/
theorem top_reviews_never_empty_witness :
    ∃ pid t ra tr pr top,
      (["itmAB12", "Phone X", "4.5", "567", "Rs599", "rev1 || rev2"] : List String) =
          [pid, t, ra, tr, pr, top] ∧ top ≠ "" ∧
        (top = "Invalid product URL" ∨ top = "No reviews found" ∨
          ∃ r : List String, r ≠ [] ∧ (∀ x ∈ r, x ≠ "") ∧ top = joinSep " || " r) :=
  top_reviews_never_empty
    [({ title := .ok "Phone X", price := .ok "Rs599", rating := .ok "4.5",
        reviews_text := .ok "1,234 Ratings & 567 Reviews",
        href := .ok (some "/phone-x/p/itmAB12?pid=1") },
      PageOutcome.ok ["rev1", "rev2"])] 1 2
    ["itmAB12", "Phone X", "4.5", "567", "Rs599", "rev1 || rev2"] (by decide)

/-- C6: the review extractor is invoked exactly for the cards whose
detail link resolved and passed the validity test (the link contains
`"flipkart.com"`), always with the per-product `review_count`; it is
never called with an unresolved (`None`) link, and a card without a
valid resolved link gets the `"Invalid product URL"` sentinel and no
extractor call. -/
theorem extractor_call_policy (cards : List (RawCard × PageOutcome))
    (max_products : Nat) (review_count : Int) :
    ((scrape_flipkart_products cards max_products review_count).2 =
      (cards.take max_products).filterMap
        (fun cp => (extract_card cp.1).bind (callFor review_count))) ∧
      (∀ c ∈ (scrape_flipkart_products cards max_products review_count).2,
        ∃ l, c = (some l, review_count) ∧ containsSub "flipkart.com".data l.data = true) ∧
      (∀ (link : Option String) (page : PageOutcome),
        (∀ l, link = some l → containsSub "flipkart.com".data l.data = false) →
          topReviewsFor review_count link page = ("Invalid product URL", [])) := by
  refine ⟨scrapeGo_calls review_count (cards.take max_products), ?_, ?_⟩
  · intro c hc
    simp only [scrape_flipkart_products] at hc
    rw [scrapeGo_calls] at hc
    obtain ⟨cp, _hcp, hbind⟩ := List.mem_filterMap.1 hc
    cases hcard : extract_card cp.1 with
    | none =>
      rw [hcard] at hbind
      simp at hbind
    | some e =>
      rw [hcard] at hbind
      simp only [Option.some_bind] at hbind
      cases hl : e.product_link with
      | none => simp [callFor, hl] at hbind
      | some lnk =>
        by_cases hf : containsSub "flipkart.com".data lnk.data = true
        · refine ⟨lnk, ?_, hf⟩
          simp only [callFor, hl, hf, if_true] at hbind
          exact (Option.some.inj hbind).symm
        · simp only [Bool.not_eq_true] at hf
          simp [callFor, hl, hf] at hbind
  · intro link page hinvalid
    cases link with
    | none => rfl
    | some l =>
      have := hinvalid l rfl
      simp [topReviewsFor, this]

/-- Witness for `extractor_call_policy`: one card with a valid
flipkart link produces exactly one extractor call carrying that link
and the requested per-product count, and an unresolved link yields
the sentinel with no call. -/
theorem extractor_call_policy_witness :
    (scrape_flipkart_products
        [({ title := .ok "Phone X", price := .ok "Rs599", rating := .ok "4.5",
            reviews_text := .ok "1,234 Ratings & 567 Reviews",
            href := .ok (some "/phone-x/p/itmAB12?pid=1") },
          PageOutcome.ok ["rev1", "rev2"])] 1 3).2 =
      [(some "https://www.flipkart.com/phone-x/p/itmAB12?pid=1", 3)] ∧
      topReviewsFor 3 none PageOutcome.err = ("Invalid product URL", []) := by
  constructor
  · rw [(extractor_call_policy
      [({ title := .ok "Phone X", price := .ok "Rs599", rating := .ok "4.5",
          reviews_text := .ok "1,234 Ratings & 567 Reviews",
          href := .ok (some "/phone-x/p/itmAB12?pid=1") },
        PageOutcome.ok ["rev1", "rev2"])] 1 3).1]
    decide
  · exact (extractor_call_policy [] 0 3).2.2 none PageOutcome.err (by intro l h; cases h)

/-! ## Characterisation of the `product_id` pattern match (C8) -/

theorem alnumRun_spec (l : List Char) :
    (alnumRun l).1 ++ (alnumRun l).2 = l ∧ (∀ c ∈ (alnumRun l).1, alnum c = true) ∧
      (∀ c, (alnumRun l).2.head? = some c → alnum c = false) := by
  induction l with
  | nil => simp [alnumRun]
  | cons c cs ih =>
    by_cases hc : alnum c = true
    · simp only [alnumRun, hc, if_true]
      refine ⟨by simpa using ih.1, ?_, ih.2.2⟩
      intro d hd
      rcases List.mem_cons.1 hd with rfl | hd
      · exact hc
      · exact ih.2.1 d hd
    · have hc' : alnum c = false := by simpa using hc
      simp only [alnumRun, hc', Bool.false_eq_true, if_false]
      refine ⟨rfl, by simp, ?_⟩
      intro d hd
      simp only [List.head?_cons, Option.some.injEq] at hd
      rw [← hd]
      exact hc'

theorem alnumRun_cons_ne_nil (c : Char) (cs : List Char) (hc : alnum c = true) :
    (alnumRun (c :: cs)).1 ≠ [] := by
  simp [alnumRun, hc]

theorem matchItmAt_some (l m : List Char) (h : matchItmAt l = some m) :
    ∃ tok rest, m = "itm".data ++ tok ∧ tok ≠ [] ∧ (∀ c ∈ tok, alnum c = true) ∧
      l = "/p/itm".data ++ tok ++ rest ∧
      (∀ c, rest.head? = some c → alnum c = false) := by
  by_cases hpre : "/p/itm".data.isPrefixOf l = true
  · obtain ⟨t, ht⟩ := List.isPrefixOf_iff_prefix.1 hpre
    have hdrop : l.drop 6 = t := by
      rw [← ht]
      have h6 : ("/p/itm".data).length = 6 := by decide
      rw [← h6, List.drop_left]
    by_cases htok : (alnumRun (l.drop 6)).1 = []
    · simp [matchItmAt, hpre, htok] at h
    · simp only [matchItmAt, hpre, if_true, if_neg htok, Option.some.injEq] at h
      obtain ⟨hsplit, hal, hmax⟩ := alnumRun_spec (l.drop 6)
      refine ⟨(alnumRun (l.drop 6)).1, (alnumRun (l.drop 6)).2, h.symm, htok, hal, ?_, hmax⟩
      rw [List.append_assoc, hsplit, hdrop]
      exact ht.symm
  · simp only [Bool.not_eq_true] at hpre
    simp [matchItmAt, hpre] at h

theorem matchItmAt_none (l : List Char) (h : matchItmAt l = none) :
    ¬ ∃ tok rest, l = "/p/itm".data ++ tok ++ rest ∧ tok ≠ [] ∧
      ∀ c ∈ tok, alnum c = true := by
  rintro ⟨tok, rest, rfl, hne, hal⟩
  obtain ⟨c, cs, rfl⟩ := List.exists_cons_of_ne_nil hne
  have hc : alnum c = true := hal c (List.mem_cons_self c cs)
  have hpre : "/p/itm".data.isPrefixOf ("/p/itm".data ++ (c :: cs) ++ rest) = true := by
    apply List.isPrefixOf_iff_prefix.2
    exact ⟨(c :: cs) ++ rest, by simp⟩
  have hdrop : ("/p/itm".data ++ (c :: cs) ++ rest).drop 6 = c :: (cs ++ rest) := by
    have h6 : ("/p/itm".data).length = 6 := by decide
    rw [List.append_assoc, ← h6, List.drop_left]
    simp
  have hr := alnumRun_cons_ne_nil c (cs ++ rest) hc
  simp only [matchItmAt, hpre, if_true, hdrop, if_neg hr] at h
  cases h

theorem searchItm_some (l m : List Char) (h : searchItm l = some m) :
    ∃ pre tok rest, m = "itm".data ++ tok ∧ tok ≠ [] ∧ (∀ c ∈ tok, alnum c = true) ∧
      l = pre ++ "/p/itm".data ++ tok ++ rest ∧
      (∀ c, rest.head? = some c → alnum c = false) := by
  induction l with
  | nil => simp [searchItm] at h
  | cons c cs ih =>
    simp only [searchItm] at h
    cases hm : matchItmAt (c :: cs) with
    | some m' =>
      rw [hm] at h
      obtain ⟨tok, rest, hmv, hne, hal, hsplit, hmax⟩ :=
        matchItmAt_some (c :: cs) m' hm
      exact ⟨[], tok, rest, by rw [← Option.some.inj h]; exact hmv, hne, hal,
        by simpa using hsplit, hmax⟩
    | none =>
      rw [hm] at h
      obtain ⟨pre, tok, rest, hmv, hne, hal, hsplit, hmax⟩ := ih h
      exact ⟨c :: pre, tok, rest, hmv, hne, hal, by simp [hsplit], hmax⟩

theorem searchItm_none (l : List Char) (h : searchItm l = none) :
    ¬ ∃ pre tok rest, l = pre ++ "/p/itm".data ++ tok ++ rest ∧ tok ≠ [] ∧
      ∀ c ∈ tok, alnum c = true := by
  induction l with
  | nil =>
    rintro ⟨pre, tok, rest, habs, -, -⟩
    have := congrArg List.length habs
    simp at this
    omega
  | cons c cs ih =>
    simp only [searchItm] at h
    cases hm : matchItmAt (c :: cs) with
    | some m' => rw [hm] at h; cases h
    | none =>
      rw [hm] at h
      rintro ⟨pre, tok, rest, hsplit, hne, hal⟩
      cases pre with
      | nil =>
        exact matchItmAt_none (c :: cs) hm ⟨tok, rest, by simpa using hsplit, hne, hal⟩
      | cons p ps =>
        have hcs : cs = ps ++ "/p/itm".data ++ tok ++ rest := by
          simpa using congrArg List.tail hsplit
        exact ih h ⟨ps, tok, rest, hcs, hne, hal⟩

/-- C8: when the detail link is defined and its text contains a
`/p/`-segment match of the pattern (`itm` followed by at least one
alphanumeric character), `product_id` is that `itm`-prefixed maximal
alphanumeric token; when the link is undefined or the pattern does
not match anywhere in the link, `product_id` is `"N/A"`. -/
theorem product_id_extraction (href : Option String) :
    (href = none → extract_product_id href = "N/A") ∧
      (∀ h : String, href = some h →
        ((¬ ∃ pre tok rest, h.data = pre ++ "/p/itm".data ++ tok ++ rest ∧ tok ≠ [] ∧
            ∀ c ∈ tok, alnum c = true) → extract_product_id href = "N/A") ∧
        (∀ pre tok rest, h.data = pre ++ "/p/itm".data ++ tok ++ rest → tok ≠ [] →
          (∀ c ∈ tok, alnum c = true) →
          ∃ tok2 pre2 rest2, extract_product_id href = ⟨"itm".data ++ tok2⟩ ∧
            tok2 ≠ [] ∧ (∀ c ∈ tok2, alnum c = true) ∧
            h.data = pre2 ++ "/p/itm".data ++ tok2 ++ rest2 ∧
            (∀ c, rest2.head? = some c → alnum c = false))) := by
  constructor
  · rintro rfl
    rfl
  · rintro h rfl
    constructor
    · intro hno
      by_cases hd : h.data = []
      · simp [extract_product_id, hd]
      · cases hs : searchItm h.data with
        | some m => exact absurd ((searchItm_some h.data m hs).imp
            (fun pre hp => ⟨hp.choose, hp.choose_spec.choose,
              hp.choose_spec.choose_spec.2.2.2.1, hp.choose_spec.choose_spec.2.1,
              hp.choose_spec.choose_spec.2.2.1⟩)) hno
        | none => simp [extract_product_id, hd, hs]
    · intro pre tok rest hsplit hne hal
      have hd : h.data ≠ [] := by
        rw [hsplit]
        intro habs
        have := congrArg List.length habs
        simp at this
      cases hs : searchItm h.data with
      | none =>
        exact absurd ⟨pre, tok, rest, hsplit, hne, hal⟩ (searchItm_none h.data hs)
      | some m =>
        obtain ⟨pre2, tok2, rest2, hmv, hne2, hal2, hsplit2, hmax2⟩ :=
          searchItm_some h.data m hs
        refine ⟨tok2, pre2, rest2, ?_, hne2, hal2, hsplit2, hmax2⟩
        simp only [extract_product_id, if_neg hd, hs]
        rw [hmv]

/-- Witness for `product_id_extraction`: a concrete href containing
`/p/itmAB12` yields an `itm`-prefixed alphanumeric token. -/
theorem product_id_extraction_witness :
    extract_product_id (some "https://www.flipkart.com/x/p/itmAB12?pid=1") = "itmAB12" ∧
      ∃ tok2 pre2 rest2,
        extract_product_id (some "https://www.flipkart.com/x/p/itmAB12?pid=1") =
            ⟨"itm".data ++ tok2⟩ ∧
          tok2 ≠ [] ∧ (∀ c ∈ tok2, alnum c = true) ∧
          ("https://www.flipkart.com/x/p/itmAB12?pid=1" : String).data =
            pre2 ++ "/p/itm".data ++ tok2 ++ rest2 ∧
          (∀ c, rest2.head? = some c → alnum c = false) :=
  ⟨by decide,
    ((product_id_extraction (some "https://www.flipkart.com/x/p/itmAB12?pid=1")).2
      "https://www.flipkart.com/x/p/itmAB12?pid=1" rfl).2
      "https://www.flipkart.com/x".data "AB12".data "?pid=1".data
      (by decide) (by decide) (by decide)⟩

/-! ## CSV persistence (`save_to_csv`, lines 172-206)

`csv.writer` with the default dialect: delimiter `,`, quote char `"`,
line terminator `"\r\n"` (the file is opened with `newline=""`), and
minimal quoting — a field is quoted iff it contains the delimiter,
the quote character, or a line-terminator character; a quote inside
a quoted field is doubled. -/

/-- Quote-doubling inside a quoted field. -/
def escapeQ : List Char → List Char
  | [] => []
  | c :: cs => if c = '"' then '"' :: '"' :: escapeQ cs else c :: escapeQ cs

/-- Minimal-quoting test of the default dialect. -/
def needsQuote (f : List Char) : Bool :=
  f.any (fun c => c = ',' || c = '"' || c = '\r' || c = '\n')

/-- One encoded field. -/
def encField (f : List Char) : List Char :=
  if needsQuote f then '"' :: (escapeQ f ++ ['"']) else f

/-- Fields of one row joined by the delimiter. -/
def encRowBody : List (List Char) → List Char
  | [] => []
  | [f] => encField f
  | f :: g :: fs => encField f ++ ',' :: encRowBody (g :: fs)

/-- One encoded row including the `"\r\n"` terminator. -/
def encRow (r : List (List Char)) : List Char :=
  encRowBody r ++ ['\r', '\n']

/-- `writer.writerow`/`writer.writerows`: rows in order. -/
def encRows (rs : List (List (List Char))) : List Char :=
  (rs.map encRow).flatten

/-- States of the CSV reader automaton: inside an unquoted field,
inside a quoted field, just after a quote inside a quoted field, or
just after a `'\r'`. -/
inductive CsvSt where
  | unq
  | quo
  | quoq
  | cr

/-- A standard CSV reader (split on the delimiter, respecting
quoting), consuming the input character by character. `f` is the
current field, `r` the current row, `rows` the finished rows. -/
def csvParse : List Char → CsvSt → List Char → List (List Char) →
    List (List (List Char)) → List (List (List Char))
  | [], st, f, r, rows =>
    match st, f, r with
    | .unq, [], [] => rows
    | _, _, _ => rows ++ [r ++ [f]]
  | c :: cs, .unq, f, r, rows =>
    if c = '"' then csvParse cs .quo f r rows
    else if c = ',' then csvParse cs .unq [] (r ++ [f]) rows
    else if c = '\r' then csvParse cs .cr f r rows
    else if c = '\n' then csvParse cs .unq [] [] (rows ++ [r ++ [f]])
    else csvParse cs .unq (f ++ [c]) r rows
  | c :: cs, .cr, f, r, rows =>
    -- a lone '\r' (never produced by the writer) also ends the row
    if c = '\n' then csvParse cs .unq [] [] (rows ++ [r ++ [f]])
    else if c = '"' then csvParse cs .quo [] [] (rows ++ [r ++ [f]])
    else if c = ',' then csvParse cs .unq [] [[]] (rows ++ [r ++ [f]])
    else if c = '\r' then csvParse cs .cr [] [] (rows ++ [r ++ [f]])
    else csvParse cs .unq [c] [] (rows ++ [r ++ [f]])
  | c :: cs, .quo, f, r, rows =>
    if c = '"' then csvParse cs .quoq f r rows
    else csvParse cs .quo (f ++ [c]) r rows
  | c :: cs, .quoq, f, r, rows =>
    if c = '"' then csvParse cs .quo (f ++ ['"']) r rows
    else if c = ',' then csvParse cs .unq [] (r ++ [f]) rows
    else if c = '\r' then csvParse cs .cr f r rows
    else if c = '\n' then csvParse cs .unq [] [] (rows ++ [r ++ [f]])
    else csvParse cs .unq (f ++ [c]) r rows

/-- Read a CSV file back into rows of fields. -/
def parseCsv (s : String) : List (List String) :=
  (csvParse s.data .unq [] [] []).map (fun r => r.map (fun f => (⟨f⟩ : String)))

/-- The fixed header row (lines 196-205). -/
def headerFields : List String :=
  ["product_id", "product_title", "rating", "total_reviews", "price", "top_reviews"]

/-- The full file content written by `save_to_csv`: header row then
one row per record, in input order. -/
def writeCsvContent (data : List (List String)) : String :=
  ⟨encRows ((headerFields :: data).map (fun row => row.map String.data))⟩

/-- `open(path, "w", ...)` truncates: the resulting file content is
independent of whatever the file held before. -/
def save_to_csv (_prev : Option String) (data : List (List String)) : String :=
  writeCsvContent data

theorem csvParse_nil (rows : List (List (List Char))) :
    csvParse [] .unq [] [] rows = rows := rfl

theorem csvParse_unq_quote (cs f : List Char) (r : List (List Char))
    (rows : List (List (List Char))) :
    csvParse ('"' :: cs) .unq f r rows = csvParse cs .quo f r rows := rfl

theorem csvParse_unq_comma (cs f : List Char) (r : List (List Char))
    (rows : List (List (List Char))) :
    csvParse (',' :: cs) .unq f r rows = csvParse cs .unq [] (r ++ [f]) rows := rfl

theorem csvParse_unq_cr (cs f : List Char) (r : List (List Char))
    (rows : List (List (List Char))) :
    csvParse ('\r' :: cs) .unq f r rows = csvParse cs .cr f r rows := rfl

theorem csvParse_unq_chr (c : Char) (cs f : List Char) (r : List (List Char))
    (rows : List (List (List Char))) (h1 : ¬c = '"') (h2 : ¬c = ',')
    (h3 : ¬c = '\r') (h4 : ¬c = '\n') :
    csvParse (c :: cs) .unq f r rows = csvParse cs .unq (f ++ [c]) r rows := by
  simp only [csvParse, if_neg h1, if_neg h2, if_neg h3, if_neg h4]

theorem csvParse_quo_quote (cs f : List Char) (r : List (List Char))
    (rows : List (List (List Char))) :
    csvParse ('"' :: cs) .quo f r rows = csvParse cs .quoq f r rows := rfl

theorem csvParse_quo_chr (c : Char) (cs f : List Char) (r : List (List Char))
    (rows : List (List (List Char))) (h : ¬c = '"') :
    csvParse (c :: cs) .quo f r rows = csvParse cs .quo (f ++ [c]) r rows := by
  simp only [csvParse, if_neg h]

theorem csvParse_quoq_quote (cs f : List Char) (r : List (List Char))
    (rows : List (List (List Char))) :
    csvParse ('"' :: cs) .quoq f r rows = csvParse cs .quo (f ++ ['"']) r rows := rfl

theorem csvParse_quoq_comma (cs f : List Char) (r : List (List Char))
    (rows : List (List (List Char))) :
    csvParse (',' :: cs) .quoq f r rows = csvParse cs .unq [] (r ++ [f]) rows := rfl

theorem csvParse_quoq_cr (cs f : List Char) (r : List (List Char))
    (rows : List (List (List Char))) :
    csvParse ('\r' :: cs) .quoq f r rows = csvParse cs .cr f r rows := rfl

theorem csvParse_cr_nl (cs f : List Char) (r : List (List Char))
    (rows : List (List (List Char))) :
    csvParse ('\n' :: cs) .cr f r rows = csvParse cs .unq [] [] (rows ++ [r ++ [f]]) := rfl

theorem csvParse_unquoted (f : List Char) :
    needsQuote f = false → ∀ rest acc r rows, csvParse (f ++ rest) .unq acc r rows =
      csvParse rest .unq (acc ++ f) r rows := by
  induction f with
  | nil =>
    intro _ rest acc r rows
    simp
  | cons c f ih =>
    intro hq rest acc r rows
    have h1 : ¬c = '"' := by
      intro h
      subst h
      simp [needsQuote] at hq
    have h2 : ¬c = ',' := by
      intro h
      subst h
      simp [needsQuote] at hq
    have h3 : ¬c = '\r' := by
      intro h
      subst h
      simp [needsQuote] at hq
    have h4 : ¬c = '\n' := by
      intro h
      subst h
      simp [needsQuote] at hq
    have hq' : needsQuote f = false := by
      simp only [needsQuote, List.any_cons, Bool.or_eq_false_iff] at hq ⊢
      exact hq.2
    rw [List.cons_append, csvParse_unq_chr c (f ++ rest) acc r rows h1 h2 h3 h4,
      ih hq' rest (acc ++ [c]) r rows]
    simp

theorem csvParse_quoted (f : List Char) :
    ∀ rest acc r rows, csvParse (escapeQ f ++ '"' :: rest) .quo acc r rows =
      csvParse rest .quoq (acc ++ f) r rows := by
  induction f with
  | nil =>
    intro rest acc r rows
    rw [show escapeQ [] ++ '"' :: rest = '"' :: rest from rfl,
      csvParse_quo_quote rest acc r rows]
    simp
  | cons c f ih =>
    intro rest acc r rows
    by_cases hc : c = '"'
    · subst hc
      rw [show escapeQ ('"' :: f) ++ '"' :: rest =
          '"' :: '"' :: (escapeQ f ++ '"' :: rest) from by simp [escapeQ],
        csvParse_quo_quote, csvParse_quoq_quote, ih rest (acc ++ ['"']) r rows]
      simp
    · rw [show escapeQ (c :: f) ++ '"' :: rest =
          c :: (escapeQ f ++ '"' :: rest) from by simp [escapeQ, hc],
        csvParse_quo_chr c _ acc r rows hc, ih rest (acc ++ [c]) r rows]
      simp

/-- Any encoded field followed by a delimiter parses back to the
field and leaves the parser ready for the next field. -/
theorem csvParse_field_comma (f : List Char) :
    ∀ rest r rows, csvParse (encField f ++ ',' :: rest) .unq [] r rows =
      csvParse rest .unq [] (r ++ [f]) rows := by
  intro rest r rows
  by_cases hq : needsQuote f = true
  · rw [show encField f ++ ',' :: rest =
        '"' :: (escapeQ f ++ '"' :: ',' :: rest) from by simp [encField, hq],
      csvParse_unq_quote, csvParse_quoted f (',' :: rest) [] r rows,
      csvParse_quoq_comma]
    simp
  · have hq' : needsQuote f = false := by simpa using hq
    rw [show encField f ++ ',' :: rest = f ++ ',' :: rest from by simp [encField, hq'],
      csvParse_unquoted f hq' (',' :: rest) [] r rows, csvParse_unq_comma]
    simp

/-- Any encoded field followed by the row terminator parses back to
the field, finishing the row. -/
theorem csvParse_field_eol (f : List Char) :
    ∀ rest r rows, csvParse (encField f ++ '\r' :: '\n' :: rest) .unq [] r rows =
      csvParse rest .unq [] [] (rows ++ [r ++ [f]]) := by
  intro rest r rows
  by_cases hq : needsQuote f = true
  · rw [show encField f ++ '\r' :: '\n' :: rest =
        '"' :: (escapeQ f ++ '"' :: '\r' :: '\n' :: rest) from by simp [encField, hq],
      csvParse_unq_quote, csvParse_quoted f ('\r' :: '\n' :: rest) [] r rows,
      csvParse_quoq_cr, csvParse_cr_nl]
    simp
  · have hq' : needsQuote f = false := by simpa using hq
    rw [show encField f ++ '\r' :: '\n' :: rest = f ++ '\r' :: '\n' :: rest from by
        simp [encField, hq'],
      csvParse_unquoted f hq' ('\r' :: '\n' :: rest) [] r rows, csvParse_unq_cr,
      csvParse_cr_nl]
    simp

theorem csvParse_row (fs : List (List Char)) (hne : fs ≠ []) :
    ∀ rest r rows, csvParse (encRowBody fs ++ '\r' :: '\n' :: rest) .unq [] r rows =
      csvParse rest .unq [] [] (rows ++ [r ++ fs]) := by
  induction fs with
  | nil => exact absurd rfl hne
  | cons f fs ih =>
    intro rest r rows
    cases fs with
    | nil =>
      simp only [encRowBody]
      exact csvParse_field_eol f rest r rows
    | cons g gs =>
      simp only [encRowBody, List.append_assoc, List.cons_append]
      rw [csvParse_field_comma f (encRowBody (g :: gs) ++ '\r' :: '\n' :: rest) r rows]
      rw [ih (by simp) rest (r ++ [f]) rows]
      simp

theorem csvParse_rows (rs : List (List (List Char))) :
    (∀ row ∈ rs, row ≠ []) →
      ∀ rows, csvParse (encRows rs) .unq [] [] rows = rows ++ rs := by
  induction rs with
  | nil =>
    intro _ rows
    simpa [encRows] using csvParse_nil rows
  | cons r rs ih =>
    intro hne rows
    have henc : encRows (r :: rs) = encRowBody r ++ '\r' :: '\n' :: encRows rs := by
      simp [encRows, encRow]
    rw [henc, csvParse_row r (hne r (List.mem_cons_self r rs)) (encRows rs) [] rows,
      List.nil_append,
      ih (fun row hrow => hne row (List.mem_cons_of_mem r hrow)) (rows ++ [r])]
    simp

/-- C9: writing `N` records produces a file whose parse (splitting on
the delimiter, respecting quoting) is exactly the fixed header row
followed by the `N` records in input order, and the written content
overwrites — it does not depend on the previous file content. -/
theorem save_to_csv_round_trip (data : List (List String))
    (hne : ∀ row ∈ data, row ≠ []) :
    parseCsv (save_to_csv none data) =
        ["product_id", "product_title", "rating", "total_reviews", "price",
          "top_reviews"] :: data ∧
      ∀ prev : Option String, save_to_csv prev data = save_to_csv none data := by
  constructor
  · have hne' : ∀ row ∈ (headerFields :: data).map (fun row => row.map String.data),
        row ≠ [] := by
      intro row hrow
      rcases List.mem_map.1 hrow with ⟨row0, hrow0, rfl⟩
      rcases List.mem_cons.1 hrow0 with rfl | h0
      · simp [headerFields]
      · simp only [ne_eq, List.map_eq_nil_iff]
        exact hne row0 h0
    have hparse := csvParse_rows _ hne' []
    simp only [save_to_csv, parseCsv, writeCsvContent]
    rw [hparse, List.nil_append, List.map_map]
    have hid : ∀ row : List String,
        ((fun r : List (List Char) => r.map (fun f => (⟨f⟩ : String))) ∘
          (fun row : List String => row.map String.data)) row = row := by
      intro row
      simp only [Function.comp_apply, List.map_map]
      have : ((fun f : List Char => (⟨f⟩ : String)) ∘ String.data) = id := by
        funext s
        rfl
      rw [this, List.map_id]
    rw [List.map_congr_left (fun row _ => hid row)]
    simp [headerFields]
  · intro prev
    rfl

/-- Witness for `save_to_csv_round_trip`: one record whose fields
exercise the delimiter, the quote character, a line break and a
non-ASCII character. -/
theorem save_to_csv_round_trip_witness :
    parseCsv (save_to_csv none
        [["itmAB12", "Phone, the \"X\"", "4.5", "1,234", "₹59,999",
          "line1\r\nline2 || r2"]]) =
      ["product_id", "product_title", "rating", "total_reviews", "price",
        "top_reviews"] ::
        [["itmAB12", "Phone, the \"X\"", "4.5", "1,234", "₹59,999",
          "line1\r\nline2 || r2"]] :=
  (save_to_csv_round_trip
    [["itmAB12", "Phone, the \"X\"", "4.5", "1,234", "₹59,999",
      "line1\r\nline2 || r2"]] (by decide)).1

/-! ## Path resolution of `save_to_csv` (lines 183-192) -/

/-- `os.path.isabs` on POSIX: the path starts with `'/'`. -/
def isAbs (p : String) : Bool :=
  "/".data.isPrefixOf p.data

/-- Python `str.rstrip('/')`. -/
def rstripSlashes (l : List Char) : List Char :=
  (l.reverse.dropWhile (fun c => c == '/')).reverse

/-- `posixpath.dirname`: everything up to and including the last
`'/'`, then — unless that head is empty or all slashes — with its
trailing slashes removed. -/
def dirnameData (p : List Char) : List Char :=
  let head := (p.reverse.dropWhile (fun c => c != '/')).reverse
  if head ≠ [] ∧ ¬(head.all (fun c => c == '/') = true) then rstripSlashes head else head

/-- `os.path.dirname` on POSIX strings. -/
def dirname (p : String) : String :=
  ⟨dirnameData p.data⟩

/-- `os.path.join` on POSIX for two arguments. -/
def joinPath (a b : String) : String :=
  if "/".data.isPrefixOf b.data then b
  else if a.data = [] ∨ a.data.getLast? = some '/' then a ++ b
  else a ++ "/" ++ b

/-- Lines 183-192: the output path and the directory handed to
`os.makedirs`, if any. -/
def resolveSavePath (output_dir filename : String) : String × Option String :=
  if isAbs filename then (filename, none)
  else if dirname filename ≠ "" then (filename, some (dirname filename))
  else (joinPath output_dir filename, none)

theorem dropWhile_ne_nil_of_mem {p : Char → Bool} {l : List Char} {a : Char}
    (ha : a ∈ l) (hpa : p a = false) : l.dropWhile p ≠ [] := by
  intro h
  have := List.dropWhile_eq_nil_iff.1 h a ha
  rw [hpa] at this
  cases this

/-- For a relative path that does contain a separator, the Python
`dirname` is non-empty. -/
theorem dirname_ne_empty (p : String) (habs : "/".data.isPrefixOf p.data = false)
    (hmem : '/' ∈ p.data) : dirname p ≠ "" := by
  obtain ⟨c0, t, hct⟩ : ∃ c0 t, p.data = c0 :: t := by
    cases hl : p.data with
    | nil => rw [hl] at hmem; cases hmem
    | cons a b => exact ⟨a, b, rfl⟩
  have hc0 : c0 ≠ '/' := by
    intro h
    subst h
    have : "/".data.isPrefixOf p.data = true := by
      apply List.isPrefixOf_iff_prefix.2
      exact ⟨t, by rw [hct]; rfl⟩
    rw [this] at habs
    cases habs
  have hmemrev : '/' ∈ p.data.reverse := List.mem_reverse.2 hmem
  have hdrop : p.data.reverse.dropWhile (fun c => c != '/') ≠ [] :=
    dropWhile_ne_nil_of_mem hmemrev (by simp)
  have hhead : ((p.data.reverse.dropWhile (fun c => c != '/')).reverse) ≠ [] := by
    simpa using hdrop
  -- the head is a prefix of the path, so it starts with `c0 ≠ '/'`
  have hsplit : p.data =
      (p.data.reverse.dropWhile (fun c => c != '/')).reverse ++
        (p.data.reverse.takeWhile (fun c => c != '/')).reverse := by
    have h1 : p.data.reverse.takeWhile (fun c => c != '/') ++
        p.data.reverse.dropWhile (fun c => c != '/') = p.data.reverse :=
      List.takeWhile_append_dropWhile _ _
    have h2 := congrArg List.reverse h1
    rw [List.reverse_append, List.reverse_reverse] at h2
    exact h2.symm
  obtain ⟨d, h', hdh⟩ :=
    List.exists_cons_of_ne_nil hhead
  have hd : d = c0 := by
    rw [hdh, hct] at hsplit
    simp only [List.cons_append] at hsplit
    injection hsplit.symm with h1 _
  have hc0mem : c0 ∈ (p.data.reverse.dropWhile (fun c => c != '/')).reverse := by
    rw [hdh, ← hd]
    exact List.mem_cons_self d h'
  have hall : ¬((p.data.reverse.dropWhile (fun c => c != '/')).reverse.all
      (fun c => c == '/') = true) := by
    intro h
    have := List.all_eq_true.1 h c0 hc0mem
    simp at this
    exact hc0 this
  have hrs : rstripSlashes ((p.data.reverse.dropWhile (fun c => c != '/')).reverse) ≠ [] := by
    simp only [rstripSlashes]
    intro h
    have h0 : ((p.data.reverse.dropWhile (fun c => c != '/')).reverse).reverse.dropWhile
        (fun c => c == '/') = [] := by simpa using h
    have hc0' : c0 ∈ ((p.data.reverse.dropWhile (fun c => c != '/')).reverse).reverse :=
      List.mem_reverse.2 hc0mem
    exact dropWhile_ne_nil_of_mem hc0' (by simp [hc0]) h0
  intro hdir
  have hdata : dirnameData p.data = [] := congrArg String.data hdir
  simp only [dirnameData, if_pos (And.intro hhead hall)] at hdata
  exact hrs hdata

/-- For a path without any separator, the Python `dirname` is
empty. -/
theorem dirname_eq_empty (p : String) (hmem : '/' ∉ p.data) : dirname p = "" := by
  have hdrop : p.data.reverse.dropWhile (fun c => c != '/') = [] := by
    apply List.dropWhile_eq_nil_iff.2
    intro x hx
    have : x ∈ p.data := List.mem_reverse.1 hx
    simp only [bne_iff_ne, ne_eq, decide_eq_true_eq]
    intro hxe
    exact hmem (hxe ▸ this)
  have : dirnameData p.data = [] := by
    simp [dirnameData, hdrop]
  simp only [dirname, this]

theorem isAbs_false_of_not_mem (p : String) (hmem : '/' ∉ p.data) :
    isAbs p = false := by
  cases h : isAbs p
  · rfl
  · exfalso
    obtain ⟨t, ht⟩ := List.isPrefixOf_iff_prefix.1 h
    apply hmem
    rw [← ht]
    simp

/-- C10: an absolute filename is used as-is with no directory
creation; a relative filename containing a separator is used as-is
and its (non-empty) parent directory is handed to `os.makedirs`; a
bare filename is joined under the configured output directory. -/
theorem save_path_resolution (output_dir filename : String) :
    (isAbs filename = true → resolveSavePath output_dir filename = (filename, none)) ∧
      (isAbs filename = false → '/' ∈ filename.data →
        resolveSavePath output_dir filename = (filename, some (dirname filename)) ∧
          dirname filename ≠ "") ∧
      ('/' ∉ filename.data →
        resolveSavePath output_dir filename = (joinPath output_dir filename, none)) ∧
      ('/' ∉ filename.data → output_dir.data ≠ [] →
        output_dir.data.getLast? ≠ some '/' →
        resolveSavePath output_dir filename = (output_dir ++ "/" ++ filename, none)) := by
  refine ⟨?_, ?_, ?_, ?_⟩
  · intro habs
    simp [resolveSavePath, habs]
  · intro habs hmem
    have hne := dirname_ne_empty filename habs hmem
    refine ⟨?_, hne⟩
    simp only [resolveSavePath, habs, Bool.false_eq_true, if_false]
    rw [if_pos hne]
  · intro hmem
    have habs := isAbs_false_of_not_mem filename hmem
    have hdir := dirname_eq_empty filename hmem
    simp only [resolveSavePath, habs, Bool.false_eq_true, if_false]
    rw [if_neg (by simp [hdir])]
  · intro hmem hod hlast
    have habs := isAbs_false_of_not_mem filename hmem
    have hdir := dirname_eq_empty filename hmem
    have hb : "/".data.isPrefixOf filename.data = false := by
      simpa [isAbs] using habs
    simp only [resolveSavePath, habs, Bool.false_eq_true, if_false]
    rw [if_neg (by simp [hdir])]
    simp only [joinPath, hb, Bool.false_eq_true, if_false]
    rw [if_neg (by
      rintro (h | h)
      · exact hod h
      · exact hlast h)]

/-- Witness for `save_path_resolution` at the three concrete calls
the spec lists. -/
theorem save_path_resolution_witness :
    resolveSavePath "data" "/tmp/x.csv" = ("/tmp/x.csv", none) ∧
      (resolveSavePath "data" "out/x.csv" = ("out/x.csv", some (dirname "out/x.csv")) ∧
        dirname "out/x.csv" ≠ "") ∧
      dirname "out/x.csv" = "out" ∧
      resolveSavePath "data" "x.csv" = ("data" ++ "/" ++ "x.csv", none) ∧
      ("data" ++ "/" ++ "x.csv" : String) = "data/x.csv" :=
  ⟨(save_path_resolution "data" "/tmp/x.csv").1 (by decide),
    (save_path_resolution "data" "out/x.csv").2.1 (by decide) (by decide),
    by decide,
    (save_path_resolution "data" "x.csv").2.2.2 (by decide) (by decide) (by decide),
    by decide⟩

end CartSense
